import Mathlib

/-
Verification of dbutils/helpers.py (educreations/django-db-utils).

Shallow embedding: each helper of the source file becomes a pure Lean
function.  Python objects are mutated in place by the source; here every
operation returns the updated owner collection instead, together with a
counter of batched queries issued, so that frame conditions ("no fetch",
"no mutation") are visible in the result.

Modelling conventions, justified against the source:
  * A related record (a row of the related model) is `Rec`, identified by
    its primary key `pk`; `payload` stands for all other columns.
  * A Python attribute slot that may be missing is `Option PyVal`:
    `none` means the attribute is not set, `some v` means it holds `v`.
    `PyVal` distinguishes Python `None`, the booleans, and a record,
    because `attach_foreignkey` tests `getattr(o, accessor, False) is False`,
    which is identity with the boolean `False`, not truthiness.
  * Python's `dict` built by `queryset_to_dict` is an insertion-ordered
    association list `List (Nat × α)`; `setdefault` and `get` are embedded
    directly.
  * `distinct` (`list(set(l))`) is embedded as `List.dedup`: the source
    only ever uses the result for membership (`__in` filters) and
    emptiness tests, for which dedup agrees with any enumeration order of
    a set.
  * The ORM query `model.objects.filter(lookup__in=values)` is a filter of
    the model's table (a `List Rec`) by key membership; issuing it bumps
    the fetch counter.  `select_related(*related)` only controls eager
    loading of nested relations on the fetched rows and does not change
    which rows are returned, so it is not reflected in the row data.
  * `attach_foreignkey` has two introspection branches (forward foreign
    key vs. reverse one-to-one); they differ only in which attribute names
    play the roles of `accessor`, `column`, `lookup` and `key`.  The
    embedding models those roles directly (`Owner.fk` is the value of
    `getattr(o, column)`, `Owner.cache` is the `accessor` slot, records
    are keyed by `pk`), which covers the forward branch verbatim and the
    reverse branch up to renaming of the attributes.
-/

namespace DbUtils

/-- A row of the related model: primary key plus the remaining columns. -/
structure Rec where
  pk : Nat
  payload : Nat
deriving DecidableEq

/-- A Python value that can sit in a cache-slot attribute: `None`, a
boolean, or a related record. -/
inductive PyVal where
  | pynone : PyVal
  | pybool : Bool → PyVal
  | record : Rec → PyVal
deriving DecidableEq

/-- An owner object, as seen by `attach_foreignkey`: `fk` is the value of
`getattr(o, column)` and `cache` is the `accessor` attribute (`none` when
the attribute is unset). -/
structure Owner where
  fk : Nat
  cache : Option PyVal
deriving DecidableEq

/-- `d.has_key(k)` for the embedded Python dict (membership test used by
`setdefault`). -/
def dictHasKey (d : List (Nat × α)) (k : Nat) : Bool :=
  d.any (fun p => p.1 == k)

/-- Python `dict.setdefault(k, v)`: insert `(k, v)` only when `k` is not
already a key. -/
def dictSetdefault (d : List (Nat × α)) (k : Nat) (v : α) : List (Nat × α) :=
  if dictHasKey d k then d else d ++ [(k, v)]

/-- Python `dict.get(k)`: the value stored at `k`, or `None` (here
`Option.none`) when `k` is absent. -/
def dictGet (d : List (Nat × α)) (k : Nat) : Option α :=
  (d.find? (fun p => p.1 == k)).map Prod.snd

/-- `queryset_to_dict(qs, key, singular=True)` (helpers.py lines 3-15,
singular branch): fold the records through `result.setdefault(getattr(u, key), u)`. -/
def queryset_to_dict (qs : List α) (key : α → Nat) : List (Nat × α) :=
  qs.foldl (fun result u => dictSetdefault result (key u) u) []

/-- `distinct(l)` (helpers.py lines 17-21): `list(set(l))`. -/
def distinct (l : List Nat) : List Nat :=
  l.dedup

/-- The test `getattr(o, accessor, False) is False` (helpers.py line 52):
true when the attribute is missing (so `getattr` returns the default
`False`) or holds the identical boolean `False`. -/
def cacheGetattrIsFalse : Option PyVal → Bool
  | none => true
  | some (PyVal.pybool false) => true
  | some _ => false

/-- The scan of helpers.py line 52: the distinct foreign-key values of the
owners passing the guard `(related or getattr(o, accessor, False) is False)`. -/
def scannedVals (related : List Nat) (objects : List Owner) : List Nat :=
  distinct ((objects.filter
    (fun o => !related.isEmpty || cacheGetattrIsFalse o.cache)).map Owner.fk)

/-- `queryset.get(...)` stores either the found record or Python `None`
into the cache slot. -/
def optRecToPy : Option Rec → PyVal
  | some r => PyVal.record r
  | none => PyVal.pynone

/-- Result of a call to `attach_foreignkey`: the owner collection after
the in-place mutations, and how many batched queries were issued. -/
structure AttachResult where
  owners : List Owner
  fetches : Nat
deriving DecidableEq

/-- `attach_foreignkey(objects, field, related, database)` (helpers.py
lines 25-62) for one resolved descriptor: scan, early return on an empty
value set, one batched `filter(lookup__in=values)` against the related
table `db`, then the total attach pass over all owners. -/
def attach_foreignkey (objects : List Owner) (related : List Nat)
    (db : List Rec) : AttachResult :=
  let values := scannedVals related objects
  if values = [] then
    ⟨objects, 0⟩
  else
    let qs := db.filter (fun r => decide (r.pk ∈ values))
    let queryset := queryset_to_dict qs Rec.pk
    ⟨objects.map (fun o =>
      { o with cache := some (optRecToPy (dictGet queryset o.fk)) }), 1⟩

/- ### Dictionary lemmas -/

theorem dictGet_append_right_of_none {α : Type} (d l2 : List (Nat × α)) (k : Nat)
    (h : dictGet d k = none) :
    dictGet (d ++ l2) k = dictGet l2 k := by
  induction d with
  | nil => simp
  | cons p d ih =>
    by_cases hp : (p.1 == k) = true
    · simp [dictGet, List.find?, hp] at h
    · simp only [dictGet, List.find?, List.cons_append, hp] at h ⊢
      exact ih h

theorem dictGet_append_left_of_some {α : Type} (d l2 : List (Nat × α)) (k : Nat)
    (v : α) (h : dictGet d k = some v) :
    dictGet (d ++ l2) k = some v := by
  induction d with
  | nil => simp [dictGet] at h
  | cons p d ih =>
    by_cases hp : (p.1 == k) = true
    · simp only [dictGet, List.find?, List.cons_append, hp] at h ⊢
      exact h
    · simp only [dictGet, List.find?, List.cons_append, hp] at h ⊢
      exact ih h

theorem dictHasKey_eq_isSome_dictGet {α : Type} (d : List (Nat × α)) (k : Nat) :
    dictHasKey d k = (dictGet d k).isSome := by
  induction d with
  | nil => rfl
  | cons p d ih =>
    by_cases hp : (p.1 == k) = true
    · simp [dictHasKey, dictGet, List.find?, hp]
    · simp only [dictHasKey, List.any_cons, dictGet, List.find?, hp,
        Bool.false_or] at ih ⊢
      exact ih

theorem dictGet_setdefault_of_none {α : Type} (d : List (Nat × α)) (k0 k : Nat)
    (v : α) (h : dictGet d k = none) :
    dictGet (dictSetdefault d k0 v) k = if k0 == k then some v else none := by
  unfold dictSetdefault
  by_cases he : (k0 == k) = true
  · have hek : k0 = k := by simpa using he
    subst hek
    by_cases hk : dictHasKey d k0 = true
    · rw [dictHasKey_eq_isSome_dictGet, h] at hk
      simp at hk
    · rw [if_neg hk, dictGet_append_right_of_none d _ k0 h]
      simp [dictGet, List.find?]
  · by_cases hk : dictHasKey d k0 = true
    · rw [if_pos hk, h]
      simp [he]
    · rw [if_neg hk, dictGet_append_right_of_none d _ k h]
      simp [dictGet, List.find?, he]

theorem dictGet_setdefault_of_some {α : Type} (d : List (Nat × α)) (k0 k : Nat)
    (v w : α) (h : dictGet d k = some w) :
    dictGet (dictSetdefault d k0 v) k = some w := by
  unfold dictSetdefault
  by_cases hk : dictHasKey d k0 = true
  · rw [if_pos hk]; exact h
  · rw [if_neg hk]; exact dictGet_append_left_of_some d _ k w h

/-- The central characterisation: after folding `setdefault` over the
records, looking up `k` returns the first record whose key is `k`. -/
theorem dictGet_foldl_setdefault {α : Type} (key : α → Nat) (k : Nat) :
    ∀ (qs : List α) (d : List (Nat × α)),
    dictGet (qs.foldl (fun result u => dictSetdefault result (key u) u) d) k
      = if (dictGet d k).isSome then dictGet d k
        else qs.find? (fun u => key u == k) := by
  intro qs
  induction qs with
  | nil =>
    intro d
    cases h : dictGet d k <;> simp [h]
  | cons u qs ih =>
    intro d
    rw [List.foldl_cons, ih]
    cases h : dictGet d k with
    | some w =>
      rw [dictGet_setdefault_of_some d (key u) k u w h]
      simp
    | none =>
      rw [dictGet_setdefault_of_none d (key u) k u h]
      by_cases he : (key u == k) = true
      · simp [he, List.find?]
      · simp [he, List.find?]

theorem dictGet_queryset_to_dict {α : Type} (key : α → Nat) (qs : List α) (k : Nat) :
    dictGet (queryset_to_dict qs key) k = qs.find? (fun u => key u == k) := by
  unfold queryset_to_dict
  rw [dictGet_foldl_setdefault]
  simp [dictGet]

/- ### Lemmas about the scan and the batched fetch -/

theorem cacheGetattrIsFalse_eq_true_iff (c : Option PyVal) :
    cacheGetattrIsFalse c = true ↔
      (c = none ∨ c = some (PyVal.pybool false)) := by
  cases c with
  | none => simp [cacheGetattrIsFalse]
  | some v =>
    cases v with
    | pynone => simp [cacheGetattrIsFalse]
    | pybool b => cases b <;> simp [cacheGetattrIsFalse]
    | record r => simp [cacheGetattrIsFalse]

theorem find?_pk_filter (db : List Rec) (values : List Nat) (k : Nat)
    (hk : k ∈ values) :
    (db.filter (fun r => decide (r.pk ∈ values))).find? (fun r => r.pk == k)
      = db.find? (fun r => r.pk == k) := by
  induction db with
  | nil => rfl
  | cons r db ih =>
    by_cases hm : r.pk ∈ values
    · by_cases hpk : (r.pk == k) = true
      · simp [List.filter_cons, hm, List.find?, hpk]
      · simp [List.filter_cons, hm, List.find?, hpk, ih]
    · have hpk : (r.pk == k) = false := by
        have hne : r.pk ≠ k := fun e => hm (e ▸ hk)
        simpa using hne
      simp [List.filter_cons, hm, List.find?, hpk, ih]

theorem attach_foreignkey_of_scanned_ne (objects : List Owner)
    (related : List Nat) (db : List Rec)
    (h : scannedVals related objects ≠ []) :
    attach_foreignkey objects related db
      = ⟨objects.map (fun o =>
            { o with cache := some (optRecToPy (dictGet
                (queryset_to_dict
                  (db.filter (fun r =>
                    decide (r.pk ∈ scannedVals related objects))) Rec.pk)
                o.fk)) }), 1⟩ := by
  unfold attach_foreignkey
  simp [h]

/- ### Claim theorems -/

/-- C1 — code bug at the failing input.  Owner A (fk 1) arrives with its
cache slot already populated by the matching record ⟨1, 10⟩, so the scan
skips it (first conjunct) and the batched fetch triggered by owner B
(fk 2) covers only key 2.  The final pass of `attach_foreignkey`
nonetheless rewrites every owner's slot from the new lookup table, so A's
valid cached record is overwritten with the missing-value sentinel
(Python `None`), although A's key has a matching record in the data
source (second conjunct).  This contradicts the claim that skipped owners
keep their previously cached value, and defeats the purpose of the
skip-if-cached optimisation stated in the source comment. -/
theorem attach_foreignkey_clobbers_skipped_owner :
    cacheGetattrIsFalse (some (PyVal.record ⟨1, 10⟩)) = false ∧
    (⟨1, 10⟩ : Rec) ∈ [(⟨1, 10⟩ : Rec), ⟨2, 20⟩] ∧
    attach_foreignkey
        [(⟨1, some (PyVal.record ⟨1, 10⟩)⟩ : Owner), ⟨2, none⟩] []
        [⟨1, 10⟩, ⟨2, 20⟩]
      = ⟨[⟨1, some PyVal.pynone⟩, ⟨2, some (PyVal.record ⟨2, 20⟩)⟩], 1⟩ := by
  decide

/-- C2 (amended): whenever the scan produces a non-empty value set — so
the batched fetch is issued — the final pass of `attach_foreignkey`
(re)writes every owner's slot (the output has one slot per input owner),
and every owner whose foreign-key value has no matching record in the
data source ends with the missing-value sentinel.  (The amendment drops
the empty-scan calls: there the function returns before mutating
anything, so a stale populated slot is kept as is; see the
counterexample.) -/
theorem attach_foreignkey_sentinel_on_fetch (objects : List Owner)
    (related : List Nat) (db : List Rec)
    (hscan : scannedVals related objects ≠ []) (i : Nat)
    (hi : i < objects.length)
    (hmiss : ∀ r ∈ db, r.pk ≠ objects[i].fk) :
    (attach_foreignkey objects related db).owners.length = objects.length ∧
    (attach_foreignkey objects related db).owners[i]?
      = some { objects[i] with cache := some PyVal.pynone } := by
  rw [attach_foreignkey_of_scanned_ne objects related db hscan]
  refine ⟨by simp, ?_⟩
  rw [List.getElem?_map, List.getElem?_eq_getElem hi]
  simp only [Option.map_some']
  have hnone : dictGet
      (queryset_to_dict
        (db.filter (fun r => decide (r.pk ∈ scannedVals related objects)))
        Rec.pk)
      (objects[i].fk) = none := by
    rw [dictGet_queryset_to_dict]
    refine List.find?_eq_none.mpr ?_
    intro r hr
    have hrdb : r ∈ db := (List.mem_filter.mp hr).1
    have := hmiss r hrdb
    simpa using this
  rw [hnone]
  rfl

theorem attach_foreignkey_sentinel_on_fetch_witness :
    scannedVals [] [(⟨1, none⟩ : Owner)] ≠ [] ∧
    (∀ r ∈ ([] : List Rec), r.pk ≠ 1) ∧
    ((attach_foreignkey [(⟨1, none⟩ : Owner)] [] []).owners.length = 1 ∧
     (attach_foreignkey [(⟨1, none⟩ : Owner)] [] []).owners[0]?
       = some ⟨1, some PyVal.pynone⟩) :=
  ⟨by decide, by decide,
    attach_foreignkey_sentinel_on_fetch [⟨1, none⟩] [] [] (by decide) 0
      (by decide) (by decide)⟩

/-- C2 counterexample: the claim as stated ("after ANY call, an owner
whose key has no matching record holds the sentinel") is false.  The only
owner is already cached with a stale record, so the scan set is empty,
`attach_foreignkey` returns before the fetch, and the slot still holds the
stale record — not the sentinel — although its key (1) matches nothing in
the (empty) data source. -/
theorem attach_foreignkey_stale_slot_survives_noop :
    (∀ r ∈ ([] : List Rec), r.pk ≠ 1) ∧
    (attach_foreignkey [(⟨1, some (PyVal.record ⟨9, 99⟩)⟩ : Owner)] [] []).owners
      = [⟨1, some (PyVal.record ⟨9, 99⟩)⟩] ∧
    some (PyVal.record ⟨9, 99⟩) ≠ some PyVal.pynone := by
  decide

/-- C5: `queryset_to_dict` with the singular flag maps each key to the
first record seen for that key in encounter order (`List.find?`), and the
empty input yields the empty mapping. -/
theorem queryset_to_dict_singular_first_wins (α : Type) (key : α → Nat) :
    (∀ (qs : List α) (k : Nat),
        dictGet (queryset_to_dict qs key) k
          = qs.find? (fun u => key u == k)) ∧
    queryset_to_dict ([] : List α) key = [] :=
  ⟨fun qs k => dictGet_queryset_to_dict key qs k, rfl⟩

theorem queryset_to_dict_singular_first_wins_witness :
    dictGet (queryset_to_dict [(⟨1, 10⟩ : Rec), ⟨2, 20⟩, ⟨1, 30⟩] Rec.pk) 1
      = List.find? (fun u => u.pk == 1) [⟨1, 10⟩, ⟨2, 20⟩, ⟨1, 30⟩] :=
  (queryset_to_dict_singular_first_wins Rec Rec.pk).1 [⟨1, 10⟩, ⟨2, 20⟩, ⟨1, 30⟩] 1

/-- C6 counterexample: the singular lookup table does NOT hold the
last-seen record for a duplicated key.  With two records sharing key 1,
the mapping holds the first (⟨1, 10⟩), which differs from the last
(⟨1, 20⟩). -/
theorem queryset_to_dict_not_last_wins :
    dictGet (queryset_to_dict [(⟨1, 10⟩ : Rec), ⟨1, 20⟩] Rec.pk) 1
      = some ⟨1, 10⟩ ∧
    (⟨1, 10⟩ : Rec) ≠ ⟨1, 20⟩ := by
  decide

/-- C6 (amended): in the singular lookup table, duplicate keys are
resolved in favour of the FIRST-seen record: a later record whose key
already occurs is silently ignored — appending it leaves the table
unchanged. -/
theorem queryset_to_dict_duplicate_ignored (α : Type) (key : α → Nat)
    (qs : List α) (u : α) (h : ∃ v ∈ qs, key v = key u) :
    queryset_to_dict (qs ++ [u]) key = queryset_to_dict qs key := by
  unfold queryset_to_dict
  rw [List.foldl_append, List.foldl_cons, List.foldl_nil]
  show dictSetdefault (queryset_to_dict qs key) (key u) u
    = queryset_to_dict qs key
  unfold dictSetdefault
  rw [if_pos]
  rw [dictHasKey_eq_isSome_dictGet, dictGet_queryset_to_dict]
  obtain ⟨v, hv, hkey⟩ := h
  exact List.find?_isSome.mpr ⟨v, hv, by simp [hkey]⟩

theorem queryset_to_dict_duplicate_ignored_witness :
    (∃ v ∈ [(⟨1, 10⟩ : Rec)], v.pk = Rec.pk ⟨1, 20⟩) ∧
    queryset_to_dict ([(⟨1, 10⟩ : Rec)] ++ [⟨1, 20⟩]) Rec.pk
      = queryset_to_dict [(⟨1, 10⟩ : Rec)] Rec.pk :=
  ⟨by decide,
    queryset_to_dict_duplicate_ignored Rec Rec.pk [⟨1, 10⟩] ⟨1, 20⟩ (by decide)⟩

/-- C7: with a non-empty `related` list, the scan guard
`(related or ...)` is true for every owner, so the scanned value set is
the distinct set of ALL owners' foreign-key values (first conjunct), and
every owner's slot — populated or not — is overwritten with the freshly
fetched record for its key (the first data-source record with that
primary key), or the sentinel if none exists (second conjunct). -/
theorem attach_foreignkey_refetch_with_related (objects : List Owner)
    (related : List Nat) (db : List Rec)
    (hrel : related ≠ []) (i : Nat) (hi : i < objects.length) :
    scannedVals related objects = distinct (objects.map Owner.fk) ∧
    (attach_foreignkey objects related db).owners[i]?
      = some { objects[i] with
          cache := some (optRecToPy (db.find? (fun r => r.pk == objects[i].fk))) } := by
  have hre : related.isEmpty = false := by
    cases related with
    | nil => exact absurd rfl hrel
    | cons a l => rfl
  have hall : scannedVals related objects = distinct (objects.map Owner.fk) := by
    unfold scannedVals
    rw [List.filter_eq_self.mpr]
    intro a _
    simp [hre]
  refine ⟨hall, ?_⟩
  have hobj : objects ≠ [] := by
    intro he
    rw [he] at hi
    simp at hi
  have hsc : scannedVals related objects ≠ [] := by
    rw [hall]
    unfold distinct
    simp only [ne_eq, List.dedup_eq_nil, List.map_eq_nil_iff]
    exact hobj
  rw [attach_foreignkey_of_scanned_ne objects related db hsc,
    List.getElem?_map, List.getElem?_eq_getElem hi]
  simp only [Option.map_some']
  have hmem : objects[i].fk ∈ scannedVals related objects := by
    rw [hall]
    unfold distinct
    rw [List.mem_dedup, List.mem_map]
    exact ⟨objects[i], List.getElem_mem hi, rfl⟩
  rw [dictGet_queryset_to_dict, find?_pk_filter db _ _ hmem]

theorem attach_foreignkey_refetch_with_related_witness :
    ([5] : List Nat) ≠ [] ∧
    (scannedVals [5] [(⟨1, some (PyVal.record ⟨1, 10⟩)⟩ : Owner)]
        = distinct [1] ∧
     (attach_foreignkey [(⟨1, some (PyVal.record ⟨1, 10⟩)⟩ : Owner)] [5]
        [⟨1, 77⟩]).owners[0]?
       = some ⟨1, some (PyVal.record ⟨1, 77⟩)⟩) :=
  ⟨by decide,
    attach_foreignkey_refetch_with_related
      [⟨1, some (PyVal.record ⟨1, 10⟩)⟩] [5] [⟨1, 77⟩] (by decide) 0 (by decide)⟩

/-- C8: when the scanned distinct value set is empty — in particular for
an empty owners collection — `attach_foreignkey` returns immediately: no
fetch is issued (counter 0) and the owner collection is returned
unchanged. -/
theorem attach_foreignkey_noop_of_no_values (objects : List Owner)
    (related : List Nat) (db : List Rec)
    (h : scannedVals related objects = []) :
    attach_foreignkey objects related db = ⟨objects, 0⟩ := by
  unfold attach_foreignkey
  simp [h]

theorem attach_foreignkey_noop_of_no_values_witness :
    scannedVals [] ([] : List Owner) = [] ∧
    attach_foreignkey [] [] [(⟨1, 10⟩ : Rec)] = ⟨[], 0⟩ :=
  ⟨rfl, attach_foreignkey_noop_of_no_values [] [] [⟨1, 10⟩] rfl⟩

/-- C10: with empty `related`, an owner is treated as already cached —
its guard `getattr(o, accessor, False) is False` is false — exactly when
its cache attribute exists and does not hold the identical boolean
`False` (first conjunct); accordingly a key enters the fetch set exactly
when some owner carrying it has a missing slot or a slot holding the
boolean `False` (second conjunct).  In particular a slot holding the
sentinel `None` from a prior call counts as cached. -/
theorem scan_skips_cached_iff (objects : List Owner) :
    (∀ c : Option PyVal, cacheGetattrIsFalse c = false ↔
        (c ≠ none ∧ c ≠ some (PyVal.pybool false))) ∧
    (∀ k : Nat, k ∈ scannedVals [] objects ↔
        ∃ o ∈ objects, o.fk = k ∧
          (o.cache = none ∨ o.cache = some (PyVal.pybool false))) := by
  constructor
  · intro c
    rw [← Bool.not_eq_true, cacheGetattrIsFalse_eq_true_iff, not_or]
  · intro k
    unfold scannedVals distinct
    rw [List.mem_dedup, List.mem_map]
    constructor
    · rintro ⟨o, ho, hfk⟩
      have hmem := List.mem_filter.mp ho
      refine ⟨o, hmem.1, hfk, ?_⟩
      have hc := hmem.2
      simp only [List.isEmpty_nil, Bool.not_true, Bool.false_or] at hc
      exact (cacheGetattrIsFalse_eq_true_iff o.cache).mp hc
    · rintro ⟨o, ho, hfk, hc⟩
      refine ⟨o, List.mem_filter.mpr ⟨ho, ?_⟩, hfk⟩
      simp only [List.isEmpty_nil, Bool.not_true, Bool.false_or]
      exact (cacheGetattrIsFalse_eq_true_iff o.cache).mpr hc

theorem scan_skips_cached_iff_witness :
    1 ∈ scannedVals [] [(⟨1, none⟩ : Owner), ⟨2, some PyVal.pynone⟩] ↔
      ∃ o ∈ [(⟨1, none⟩ : Owner), ⟨2, some PyVal.pynone⟩], o.fk = 1 ∧
        (o.cache = none ∨ o.cache = some (PyVal.pybool false)) :=
  (scan_skips_cached_iff [⟨1, none⟩, ⟨2, some PyVal.pynone⟩]).2 1

/- ### attach_foreignkeys (helpers.py lines 64-100) -/

/-- The descriptor data `attach_foreignkeys` reads from each group's
`field`: the related model (`field.field.rel.to`), identified here by a
numeric model id.  (`field.field.column` and `field.field.name` determine
which owner attributes play `fk` and `cache`; as for `attach_foreignkey`
those roles are modelled directly on `Owner`.) -/
structure FKField where
  model : Nat
deriving DecidableEq

deriving instance DecidableEq for Except

/-- Result of a call to `attach_foreignkeys`: either the `ValueError` of
helpers.py line 85 carrying the two conflicting model ids, or the groups'
owner collections after the attach passes, plus a count of batched
queries issued.  In this pure embedding mutation happens only through the
returned owner lists, so an error result mutates no owner. -/
structure MultiAttachResult where
  result : Except (Nat × Nat) (List (List Owner))
  fetches : Nat
deriving DecidableEq

/-- `values.update(distinct(...))` (helpers.py line 88): set union,
represented on deduplicated lists. -/
def valuesUpdate (values newVals : List Nat) : List Nat :=
  (values ++ newVals).dedup

/-- The loop of helpers.py lines 81-88: establish the shared related
model, raising `ValueError` with the two conflicting models on a
mismatch, while unioning each group's scanned foreign-key values. -/
def fkScan (related : List Nat) :
    Option Nat → List Nat → List (List Owner × FKField) →
    Except (Nat × Nat) (Option Nat × List Nat)
  | model, values, [] => Except.ok (model, values)
  | none, values, (objects, field) :: rest =>
      fkScan related (some field.model)
        (valuesUpdate values (scannedVals related objects)) rest
  | some m, values, (objects, field) :: rest =>
      if m = field.model then
        fkScan related (some m)
          (valuesUpdate values (scannedVals related objects)) rest
      else
        Except.error (m, field.model)

/-- The attach pass of helpers.py lines 98-100 for one group, against the
shared lookup table. -/
def attachPass (queryset : List (Nat × Rec)) (objects : List Owner) :
    List Owner :=
  objects.map (fun o =>
    { o with cache := some (optRecToPy (dictGet queryset o.fk)) })

/-- `attach_foreignkeys(*object_sets, related=..., database=...)`
(helpers.py lines 64-100): the per-group scan with the model check, an
early return on an empty union, one batched `filter(pk__in=values)`
against the shared model's table, one shared lookup table, and the attach
pass per group.  `db` maps a model id to that model's table; the fetched
model is the one established by the scan (when the union is non-empty at
least one group exists, so the `getD` default is never the one used). -/
def attach_foreignkeys (object_sets : List (List Owner × FKField))
    (related : List Nat) (db : Nat → List Rec) : MultiAttachResult :=
  match fkScan related none [] object_sets with
  | Except.error e => ⟨Except.error e, 0⟩
  | Except.ok (model, values) =>
    if values = [] then
      ⟨Except.ok (object_sets.map Prod.fst), 0⟩
    else
      let qs := (db (model.getD 0)).filter (fun r => decide (r.pk ∈ values))
      let queryset := queryset_to_dict qs Rec.pk
      ⟨Except.ok (object_sets.map (fun g => attachPass queryset g.1)), 1⟩

/-- The union of all groups' scanned values, exactly as the loop
accumulates it. -/
def scanUnion (related : List Nat) (gs : List (List Owner × FKField)) :
    List Nat :=
  gs.foldl (fun values g => valuesUpdate values (scannedVals related g.1)) []

theorem mem_foldl_valuesUpdate (related : List Nat) :
    ∀ (gs : List (List Owner × FKField)) (acc : List Nat) (k : Nat),
    (k ∈ gs.foldl (fun values g => valuesUpdate values (scannedVals related g.1)) acc
      ↔ k ∈ acc ∨ ∃ g ∈ gs, k ∈ scannedVals related g.1) := by
  intro gs
  induction gs with
  | nil =>
    intro acc k
    simp
  | cons g gs ih =>
    intro acc k
    rw [List.foldl_cons, ih]
    unfold valuesUpdate
    rw [List.mem_dedup, List.mem_append]
    constructor
    · rintro ((h | h) | ⟨g2, hg2, hk⟩)
      · exact Or.inl h
      · exact Or.inr ⟨g, List.mem_cons_self g gs, h⟩
      · exact Or.inr ⟨g2, List.mem_cons_of_mem g hg2, hk⟩
    · rintro (h | ⟨g2, hg2, hk⟩)
      · exact Or.inl (Or.inl h)
      · rcases List.mem_cons.mp hg2 with he | hm
        · subst he
          exact Or.inl (Or.inr hk)
        · exact Or.inr ⟨g2, hm, hk⟩

theorem fkScan_ok_of_forall_model (related : List Nat) (m : Nat) :
    ∀ (gs : List (List Owner × FKField)) (values : List Nat),
    (∀ g ∈ gs, g.2.model = m) →
    fkScan related (some m) values gs
      = Except.ok (some m,
          gs.foldl (fun v g => valuesUpdate v (scannedVals related g.1)) values) := by
  intro gs
  induction gs with
  | nil =>
    intro values _
    rfl
  | cons g gs ih =>
    intro values hall
    obtain ⟨objects, field⟩ := g
    have hg : field.model = m := hall (objects, field) (List.mem_cons_self _ _)
    simp only [fkScan, List.foldl_cons]
    rw [if_pos hg.symm]
    exact ih _ (fun g2 hg2 => hall g2 (List.mem_cons_of_mem _ hg2))

theorem fkScan_error_of_mismatch (related : List Nat) :
    ∀ (gs : List (List Owner × FKField)) (m : Nat) (values : List Nat),
    (∃ g ∈ gs, g.2.model ≠ m) →
    ∃ a b, fkScan related (some m) values gs = Except.error (a, b) ∧ a ≠ b ∧
      (a = m ∨ ∃ g ∈ gs, g.2.model = a) ∧ (∃ g ∈ gs, g.2.model = b) := by
  intro gs
  induction gs with
  | nil =>
    rintro m values ⟨g, hg, _⟩
    exact absurd hg (List.not_mem_nil g)
  | cons g gs ih =>
    rintro m values ⟨g0, hg0, hne⟩
    obtain ⟨objects, field⟩ := g
    by_cases hf : field.model = m
    · have htail : ∃ g2 ∈ gs, g2.2.model ≠ m := by
        rcases List.mem_cons.mp hg0 with he | hm2
        · subst he
          simp [hf] at hne
        · exact ⟨g0, hm2, hne⟩
      obtain ⟨a, b, hsc, hab, ha, hb⟩ :=
        ih m (valuesUpdate values (scannedVals related objects)) htail
      refine ⟨a, b, ?_, hab, ?_, ?_⟩
      · simp only [fkScan]
        rw [if_pos hf.symm]
        exact hsc
      · rcases ha with h | ⟨g2, hg2, hm2⟩
        · exact Or.inl h
        · exact Or.inr ⟨g2, List.mem_cons_of_mem _ hg2, hm2⟩
      · obtain ⟨g2, hg2, hm2⟩ := hb
        exact ⟨g2, List.mem_cons_of_mem _ hg2, hm2⟩
    · refine ⟨m, field.model, ?_, fun e => hf e.symm, Or.inl rfl,
        ⟨(objects, field), List.mem_cons_self _ _, rfl⟩⟩
      simp only [fkScan]
      rw [if_neg (fun e => hf e.symm)]

/-- C3: when the groups reference two different related models,
`attach_foreignkeys` fails with the `ValueError` of helpers.py line 85
carrying two distinct model ids, both of which are models of actual
groups; the raise happens inside the scan loop, so zero batched fetches
are issued and no owner list is produced (in this pure embedding, the
error result carries no mutated owners). -/
theorem attach_foreignkeys_model_mismatch
    (object_sets : List (List Owner × FKField)) (related : List Nat)
    (db : Nat → List Rec)
    (h : ∃ g1 ∈ object_sets, ∃ g2 ∈ object_sets, g1.2.model ≠ g2.2.model) :
    ∃ a b, a ≠ b ∧
      (∃ g ∈ object_sets, g.2.model = a) ∧
      (∃ g ∈ object_sets, g.2.model = b) ∧
      attach_foreignkeys object_sets related db
        = ⟨Except.error (a, b), 0⟩ := by
  cases object_sets with
  | nil =>
    obtain ⟨g1, hg1, _⟩ := h
    exact absurd hg1 (List.not_mem_nil g1)
  | cons g gs =>
    obtain ⟨objects, field⟩ := g
    have htail : ∃ g2 ∈ gs, g2.2.model ≠ field.model := by
      by_contra hno
      push_neg at hno
      have hallm : ∀ x ∈ (objects, field) :: gs, x.2.model = field.model := by
        intro x hx
        rcases List.mem_cons.mp hx with he | hm
        · subst he
          rfl
        · exact hno x hm
      obtain ⟨g1, hg1, g2, hg2, hne⟩ := h
      exact hne ((hallm g1 hg1).trans (hallm g2 hg2).symm)
    obtain ⟨a, b, hsc, hab, ha, hb⟩ :=
      fkScan_error_of_mismatch related gs field.model
        (valuesUpdate [] (scannedVals related objects)) htail
    refine ⟨a, b, hab, ?_, ?_, ?_⟩
    · rcases ha with he | ⟨g2, hg2, hm2⟩
      · exact ⟨(objects, field), List.mem_cons_self _ _, he.symm⟩
      · exact ⟨g2, List.mem_cons_of_mem _ hg2, hm2⟩
    · obtain ⟨g2, hg2, hm2⟩ := hb
      exact ⟨g2, List.mem_cons_of_mem _ hg2, hm2⟩
    · unfold attach_foreignkeys
      simp only [fkScan, hsc]

theorem attach_foreignkeys_model_mismatch_witness :
    (∃ g1 ∈ [([(⟨1, none⟩ : Owner)], (⟨1⟩ : FKField)),
             ([(⟨2, none⟩ : Owner)], (⟨2⟩ : FKField))],
       ∃ g2 ∈ [([(⟨1, none⟩ : Owner)], (⟨1⟩ : FKField)),
               ([(⟨2, none⟩ : Owner)], (⟨2⟩ : FKField))],
         g1.2.model ≠ g2.2.model) ∧
    (∃ a b, a ≠ b ∧
      (∃ g ∈ [([(⟨1, none⟩ : Owner)], (⟨1⟩ : FKField)),
              ([(⟨2, none⟩ : Owner)], (⟨2⟩ : FKField))], g.2.model = a) ∧
      (∃ g ∈ [([(⟨1, none⟩ : Owner)], (⟨1⟩ : FKField)),
              ([(⟨2, none⟩ : Owner)], (⟨2⟩ : FKField))], g.2.model = b) ∧
      attach_foreignkeys
          [([(⟨1, none⟩ : Owner)], (⟨1⟩ : FKField)),
           ([(⟨2, none⟩ : Owner)], (⟨2⟩ : FKField))] [] (fun _ => [])
        = ⟨Except.error (a, b), 0⟩) :=
  ⟨by decide,
    attach_foreignkeys_model_mismatch
      [([⟨1, none⟩], ⟨1⟩), ([⟨2, none⟩], ⟨2⟩)] [] (fun _ => []) (by decide)⟩

/-- C4 (amended): when all groups reference the same related model `m`
AND the union of their scanned foreign-key values is non-empty, the
scanned values of all groups are unioned into one distinct key set (the
first conjunct characterises the union's membership), exactly one batched
fetch is issued, it covers that union, and the single resulting lookup
table serves the attach pass of every group.  (The amendment adds the
non-emptiness condition: on an empty union the source returns before the
query, issuing zero fetches — see the counterexample.) -/
theorem attach_foreignkeys_single_fetch
    (object_sets : List (List Owner × FKField)) (related : List Nat)
    (db : Nat → List Rec) (m : Nat)
    (hm : ∀ g ∈ object_sets, g.2.model = m)
    (hne : scanUnion related object_sets ≠ []) :
    (∀ k : Nat, k ∈ scanUnion related object_sets ↔
        ∃ g ∈ object_sets, k ∈ scannedVals related g.1) ∧
    attach_foreignkeys object_sets related db
      = ⟨Except.ok (object_sets.map (fun g =>
            attachPass
              (queryset_to_dict
                ((db m).filter (fun r =>
                  decide (r.pk ∈ scanUnion related object_sets))) Rec.pk)
              g.1)), 1⟩ := by
  constructor
  · intro k
    unfold scanUnion
    rw [mem_foldl_valuesUpdate]
    simp
  · cases object_sets with
    | nil => exact absurd rfl hne
    | cons g gs =>
      obtain ⟨objects, field⟩ := g
      have hfm : field.model = m := hm (objects, field) (List.mem_cons_self _ _)
      have hscan : fkScan related none [] ((objects, field) :: gs)
          = Except.ok (some m, scanUnion related ((objects, field) :: gs)) := by
        simp only [fkScan]
        rw [hfm,
          fkScan_ok_of_forall_model related m gs _
            (fun g2 hg2 => hm g2 (List.mem_cons_of_mem _ hg2))]
        rfl
      unfold attach_foreignkeys
      rw [hscan]
      simp only [Option.getD_some]
      rw [if_neg hne]

theorem attach_foreignkeys_single_fetch_witness :
    (∀ g ∈ [([(⟨1, none⟩ : Owner)], (⟨7⟩ : FKField)),
            ([(⟨2, none⟩ : Owner)], (⟨7⟩ : FKField))], g.2.model = 7) ∧
    scanUnion [] [([(⟨1, none⟩ : Owner)], (⟨7⟩ : FKField)),
                  ([(⟨2, none⟩ : Owner)], (⟨7⟩ : FKField))] ≠ [] ∧
    attach_foreignkeys
        [([(⟨1, none⟩ : Owner)], (⟨7⟩ : FKField)),
         ([(⟨2, none⟩ : Owner)], (⟨7⟩ : FKField))] []
        (fun _ => [(⟨1, 10⟩ : Rec)])
      = ⟨Except.ok [[⟨1, some (PyVal.record ⟨1, 10⟩)⟩],
                    [⟨2, some PyVal.pynone⟩]], 1⟩ :=
  ⟨by decide, by decide, by
    have h := (attach_foreignkeys_single_fetch
      [([⟨1, none⟩], ⟨7⟩), ([⟨2, none⟩], ⟨7⟩)] []
      (fun _ => [⟨1, 10⟩]) 7 (by decide) (by decide)).2
    rw [h]
    decide⟩

/-- C4 counterexample: the claim as stated ("exactly one batched fetch is
issued") is false when the unioned scan set is empty.  Here the single
group references model 7 (so the same-model precondition holds), its only
owner is already cached and `related` is empty, so the call returns with
ZERO fetches even though the data source holds a matching record. -/
theorem attach_foreignkeys_empty_union_no_fetch :
    (∀ g ∈ [([(⟨1, some (PyVal.record ⟨1, 10⟩)⟩ : Owner)], (⟨7⟩ : FKField))],
        g.2.model = 7) ∧
    (attach_foreignkeys
        [([(⟨1, some (PyVal.record ⟨1, 10⟩)⟩ : Owner)], (⟨7⟩ : FKField))] []
        (fun _ => [(⟨1, 10⟩ : Rec)])).fetches = 0 := by
  decide

/- ### attach_profile (helpers.py lines 103-139) -/

/-- A profile row of the configured profile model: primary key (equal to
the owning user's pk, as queried by `filter(pk__in=set(u.pk ...))`), the
remaining columns, and the `user` back-reference attribute, holding a
user's pk once `profile.user = u` has run. -/
structure Profile where
  pk : Nat
  payload : Nat
  user : Option Nat
deriving DecidableEq

/-- A user object: primary key and the `_profile_cache` slot (`none`
while the attribute is unset; `some none` once Python `None` has been
stored into it; `some (some p)` once a profile has been attached). -/
structure User where
  pk : Nat
  profile_cache : Option (Option Profile)
deriving DecidableEq

/-- One successful-or-not iteration body, as a value:
`u._profile_cache = profiles.get(u.pk)` followed (when a profile was
found) by `u._profile_cache.user = u`. -/
def attachStep (profiles : List (Nat × Profile)) (u : User) : User :=
  match dictGet profiles u.pk with
  | some p => { u with profile_cache := some (some { p with user := some u.pk }) }
  | none => { u with profile_cache := some none }

/-- The loop of helpers.py lines 135-137, over the users still to be
processed, with the already-processed users accumulated (reversed) in
`done`.  For each user the source runs
`u._profile_cache = profiles.get(u.pk)` and then
`u._profile_cache.user = u`; when `get` returned `None` the first
assignment still succeeds (the slot now holds `None`) and the second —
an attribute assignment on `None` — raises `AttributeError`.  The error
value carries the state of the whole user collection at that moment:
earlier users attached, the failing user's slot holding `None`, later
users untouched. -/
def attachProfileGo (profiles : List (Nat × Profile)) :
    List User → List User → Except (List User) (List User)
  | done, [] => Except.ok done.reverse
  | done, u :: rest =>
    match dictGet profiles u.pk with
    | some p =>
        attachProfileGo profiles
          ({ u with profile_cache := some (some { p with user := some u.pk }) } :: done)
          rest
    | none =>
        Except.error (done.reverse ++ ({ u with profile_cache := some none } :: rest))

/-- The lookup table of helpers.py lines 133-134:
`queryset_to_dict(model._default_manager.filter(pk__in=set([u.pk for u in users])))`. -/
def profilesFor (users : List User) (profileTable : List Profile) :
    List (Nat × Profile) :=
  queryset_to_dict
    (profileTable.filter (fun p => decide (p.pk ∈ distinct (users.map User.pk))))
    Profile.pk

/-- `attach_profile(users)` (helpers.py lines 103-139), after the
framework configuration (settings lookup, model loading — out of scope
here) has resolved the profile model to the table `profileTable`: one
batched fetch keyed by the users' primary keys, then the attach loop.
On success the source returns `users`. -/
def attach_profile (users : List User) (profileTable : List Profile) :
    Except (List User) (List User) :=
  attachProfileGo (profilesFor users profileTable) [] users

theorem attachProfileGo_error (profiles : List (Nat × Profile)) (bad : User)
    (hbad : dictGet profiles bad.pk = none) :
    ∀ (good : List User) (done rest : List User),
    (∀ g ∈ good, (dictGet profiles g.pk).isSome) →
    attachProfileGo profiles done (good ++ bad :: rest)
      = Except.error (done.reverse ++
          (good.map (attachStep profiles) ++
            ({ bad with profile_cache := some none } :: rest))) := by
  intro good
  induction good with
  | nil =>
    intro done rest _
    simp only [List.nil_append, attachProfileGo, hbad, List.map_nil]
  | cons g good ih =>
    intro done rest hall
    have hg := hall g (List.mem_cons_self _ _)
    obtain ⟨p, hp⟩ := Option.isSome_iff_exists.mp hg
    simp only [List.cons_append, attachProfileGo, hp]
    rw [List.append_eq, ih _ rest (fun x hx => hall x (List.mem_cons_of_mem _ hx))]
    simp only [List.reverse_cons, List.map_cons, attachStep, hp,
      List.append_assoc, List.singleton_append, List.cons_append,
      List.nil_append]

/-- C9: when `users` decomposes as `good ++ bad :: rest` with every user
of `good` having a matching profile record and `bad` having none,
`attach_profile` fails with the `AttributeError` raised by
`u._profile_cache.user = u` on the missing-value sentinel, and the state
at the failure is a partial mutation: every user of `good` — visited
earlier in iteration order — keeps its attached profile (with the
back-reference set, second conjunct), the failing user's slot holds
`None`, and the rest are untouched.  This is unlike the
sentinel-tolerant total pass of `attach_foreignkey`. -/
theorem attach_profile_partial_failure (good : List User) (bad : User)
    (rest : List User) (profileTable : List Profile)
    (hgood : ∀ g ∈ good, ∃ p ∈ profileTable, p.pk = g.pk)
    (hbad : ∀ p ∈ profileTable, p.pk ≠ bad.pk) :
    attach_profile (good ++ bad :: rest) profileTable
      = Except.error
          (good.map (attachStep (profilesFor (good ++ bad :: rest) profileTable)) ++
            ({ bad with profile_cache := some none } :: rest)) ∧
    ∀ g ∈ good, ∃ p ∈ profileTable, p.pk = g.pk ∧
      attachStep (profilesFor (good ++ bad :: rest) profileTable) g
        = { g with profile_cache := some (some { p with user := some g.pk }) } := by
  have hnone : dictGet (profilesFor (good ++ bad :: rest) profileTable) bad.pk
      = none := by
    unfold profilesFor
    rw [dictGet_queryset_to_dict]
    refine List.find?_eq_none.mpr ?_
    intro p hp
    have := hbad p (List.mem_filter.mp hp).1
    simpa using this
  have hsome : ∀ g ∈ good,
      (dictGet (profilesFor (good ++ bad :: rest) profileTable) g.pk).isSome := by
    intro g hg
    obtain ⟨p, hpT, hpk⟩ := hgood g hg
    unfold profilesFor
    rw [dictGet_queryset_to_dict]
    refine List.find?_isSome.mpr ⟨p, List.mem_filter.mpr ⟨hpT, ?_⟩, by simp [hpk]⟩
    have hgpk : g.pk ∈ (good ++ bad :: rest).map User.pk :=
      List.mem_map.mpr ⟨g, by simp [hg], rfl⟩
    simpa [distinct, List.mem_dedup, hpk] using hgpk
  constructor
  · unfold attach_profile
    have h := attachProfileGo_error
      (profilesFor (good ++ bad :: rest) profileTable) bad hnone good [] rest hsome
    simpa using h
  · intro g hg
    have hs := hsome g hg
    obtain ⟨p0, hp0⟩ := Option.isSome_iff_exists.mp hs
    have hp0f := hp0
    unfold profilesFor at hp0f
    rw [dictGet_queryset_to_dict] at hp0f
    have hmem : p0 ∈ profileTable :=
      (List.mem_filter.mp (List.mem_of_find?_eq_some hp0f)).1
    have hpk : p0.pk = g.pk := by
      have := List.find?_some hp0f
      simpa using this
    refine ⟨p0, hmem, hpk, ?_⟩
    unfold attachStep
    rw [hp0]

theorem attach_profile_partial_failure_witness :
    (∀ g ∈ [(⟨1, none⟩ : User)],
        ∃ p ∈ [(⟨1, 50, none⟩ : Profile)], p.pk = g.pk) ∧
    (∀ p ∈ [(⟨1, 50, none⟩ : Profile)], p.pk ≠ (⟨2, none⟩ : User).pk) ∧
    (attach_profile ([(⟨1, none⟩ : User)] ++ (⟨2, none⟩ : User) :: [])
        [(⟨1, 50, none⟩ : Profile)]
      = Except.error
          ([(⟨1, none⟩ : User)].map
            (attachStep (profilesFor ([(⟨1, none⟩ : User)] ++ (⟨2, none⟩ : User) :: [])
              [(⟨1, 50, none⟩ : Profile)])) ++
            ({ (⟨2, none⟩ : User) with profile_cache := some none } :: [])) ∧
     ∀ g ∈ [(⟨1, none⟩ : User)], ∃ p ∈ [(⟨1, 50, none⟩ : Profile)], p.pk = g.pk ∧
       attachStep (profilesFor ([(⟨1, none⟩ : User)] ++ (⟨2, none⟩ : User) :: [])
           [(⟨1, 50, none⟩ : Profile)]) g
         = { g with profile_cache := some (some { p with user := some g.pk }) }) :=
  ⟨by decide, by decide,
    attach_profile_partial_failure [⟨1, none⟩] ⟨2, none⟩ [] [⟨1, 50, none⟩]
      (by decide) (by decide)⟩

end DbUtils
